import Mathlib

/-!
Verification development for the arxiv-digest-web repository.

The repository is a Next.js web frontend: a digest page
(web/app/[username]/digest/page.tsx) that POSTs the user topics to
/api/digest, decodes the response into papers plus run statistics and
renders them with topic filtering, pagination and abstract truncation;
a topic editor page with the operations slugify, addTopic, removeTopic,
toggleEnabled, addTerm and removeTerm; and the /api/digest route handler
that proxies the backend.  Every definition below is a direct shallow
embedding of the corresponding TypeScript function; machine strings are
modelled as Lean strings (lists of characters).
-/

/-- A JSON value, as exchanged between the backend, the API route and the
digest page.  Numbers are modelled as integers, which covers the two
numeric fields (fetched, matched) the digest traffic uses. -/
inductive Json where
  | null : Json
  | bool (b : Bool) : Json
  | num (n : Int) : Json
  | str (s : String) : Json
  | arr (elems : List Json) : Json
  | obj (fields : List (String × Json)) : Json

mutual
/-- Serialization of a JSON value; models what Response.text() yields for a
body that the backend produced as JSON. -/
def renderJson : Json → String
  | .null => "null"
  | .bool b => if b then "true" else "false"
  | .num n => toString n
  | .str s => "\"" ++ s ++ "\""
  | .arr xs => "[" ++ renderJsonList xs ++ "]"
  | .obj fs => "\x7b" ++ renderJsonFields fs ++ "\x7d"

def renderJsonList : List Json → String
  | [] => ""
  | [x] => renderJson x
  | x :: y :: xs => renderJson x ++ "," ++ renderJsonList (y :: xs)

def renderJsonFields : List (String × Json) → String
  | [] => ""
  | [(k, v)] => "\"" ++ k ++ "\":" ++ renderJson v
  | (k, v) :: f :: fs => "\"" ++ k ++ "\":" ++ renderJson v ++ "," ++ renderJsonFields (f :: fs)
end

/-- Field lookup on a JSON object (property access in the TypeScript code). -/
def getField (j : Json) (key : String) : Option Json :=
  match j with
  | .obj fields => fields.lookup key
  | _ => none

def asString : Json → Option String
  | .str s => some s
  | _ => none

def asInt : Json → Option Int
  | .num n => some n
  | _ => none

def asArr : Json → Option (List Json)
  | .arr xs => some xs
  | _ => none

/-- Decode every element of a list, failing if any element fails. -/
def decodeList (f : Json → Option α) : List Json → Option (List α)
  | [] => some []
  | x :: xs =>
    match f x, decodeList f xs with
    | some a, some as => some (a :: as)
    | _, _ => none

def asStringList (j : Json) : Option (List String) :=
  match j with
  | .arr xs => decodeList asString xs
  | _ => none

/-- The Paper record consumed by the digest page
(type Paper, page.tsx lines 6-15). -/
structure Paper where
  id : String
  title : String
  abstract : String
  authors : List String
  url : String
  published : String
  topics : List String
  match_method : String
deriving DecidableEq

/-- The stats object read by the digest page (data.stats, with the fields
fetched and matched rendered in the header). -/
structure Stats where
  fetched : Int
  matched : Int
deriving DecidableEq

/-- The successful digest response shape consumed by runDigest:
a top-level papers array and a top-level stats object. -/
structure DigestResponse where
  papers : List Paper
  stats : Stats
deriving DecidableEq

/-- Decoder for one paper, transcribing the Paper type declared by the page. -/
def decodePaper (j : Json) : Option Paper := do
  let id ← getField j "id" >>= asString
  let title ← getField j "title" >>= asString
  let abstract ← getField j "abstract" >>= asString
  let authors ← getField j "authors" >>= asStringList
  let url ← getField j "url" >>= asString
  let published ← getField j "published" >>= asString
  let topics ← getField j "topics" >>= asStringList
  let mm ← getField j "match_method" >>= asString
  pure ⟨id, title, abstract, authors, url, published, topics, mm⟩

def decodeStats (j : Json) : Option Stats := do
  let fetched ← getField j "fetched" >>= asInt
  let matched ← getField j "matched" >>= asInt
  pure ⟨fetched, matched⟩

/-- The shape the digest page consumes from a successful response:
data.papers iterated for topics and rendered, data.stats for the header. -/
def decodeDigestResponse (j : Json) : Option DigestResponse := do
  let paperJsons ← getField j "papers" >>= asArr
  let papers ← decodeList decodePaper paperJsons
  let stats ← getField j "stats" >>= decodeStats
  pure ⟨papers, stats⟩

def encodePaper (p : Paper) : Json :=
  .obj [("id", .str p.id), ("title", .str p.title), ("abstract", .str p.abstract),
        ("authors", .arr (p.authors.map Json.str)), ("url", .str p.url),
        ("published", .str p.published), ("topics", .arr (p.topics.map Json.str)),
        ("match_method", .str p.match_method)]

def encodeDigestResponse (d : DigestResponse) : Json :=
  .obj [("papers", .arr (d.papers.map encodePaper)),
        ("stats", .obj [("fetched", .num d.stats.fetched), ("matched", .num d.stats.matched)])]

/-- Match method, as named by the specification. -/
inductive Method where
  | keyword : Method
  | semantic : Method
deriving DecidableEq

def asMethod : Json → Option Method
  | .str "keyword" => some .keyword
  | .str "semantic" => some .semantic
  | _ => none

def decodeMethodPairs : List (String × Json) → Option (List (String × Method))
  | [] => some []
  | (k, v) :: rest =>
    match asMethod v, decodeMethodPairs rest with
    | some m, some ms => some ((k, m) :: ms)
    | _, _ => none

def asMethodsMap (j : Json) : Option (List (String × Method)) :=
  match j with
  | .obj fields => decodeMethodPairs fields
  | _ => none

/-- Modelled from the spec: a digest entry of the shape the specification
describes in its Output interface, carrying the paper, the matched topic
identifiers and a per-topic methods map. -/
structure SpecEntry where
  paper : Json
  topics : List String
  methods : List (String × Method)

/-- Modelled from the spec: the digest object shape the specification
describes, with top-level integer fields fetched and matched and a field
entries. -/
structure SpecDigest where
  fetched : Int
  matched : Int
  entries : List SpecEntry

def decodeSpecEntry (j : Json) : Option SpecEntry := do
  let paper ← getField j "paper"
  let topics ← getField j "topics" >>= asStringList
  let methods ← getField j "methods" >>= asMethodsMap
  pure ⟨paper, topics, methods⟩

/-- Decoder for the shape claimed by the specification sentence:
a top-level fetched int, matched int, and entries array whose elements
carry paper, topics and a per-topic methods map. -/
def decodeSpecDigest (j : Json) : Option SpecDigest := do
  let fetched ← getField j "fetched" >>= asInt
  let matched ← getField j "matched" >>= asInt
  let entryJsons ← getField j "entries" >>= asArr
  let entries ← decodeList decodeSpecEntry entryJsons
  pure ⟨fetched, matched, entries⟩

/-- An HTTP response: status code and (JSON) body. -/
structure HttpResp where
  status : Nat
  body : Json

/-- Response.ok of the fetch API: status in the range 200 to 299. -/
def respOk (r : HttpResp) : Bool := decide (200 ≤ r.status ∧ r.status < 300)

/-- The POST handler of the /api/digest route: forwards the backend
response body on success, otherwise wraps the backend body text in an
error object while preserving the backend status. -/
def digestPOST (res : HttpResp) : HttpResp :=
  if !(respOk res) then
    ⟨res.status, Json.obj [("error", Json.str (renderJson res.body))]⟩
  else
    ⟨200, res.body⟩

/-- The phase the digest page ends up in after runDigest handles the
response of /api/digest: the results phase carries the decoded papers and
stats; the error phase renders only the error message and no digest. -/
inductive PagePhase where
  | results (papers : List Paper) (stats : Stats) : PagePhase
  | error (msg : String) : PagePhase
deriving DecidableEq

/-- The response handling of runDigest (page.tsx lines 82-126): a non-ok
response throws its body text, landing in the error phase (with the
fallback message when the text is empty); an ok response is decoded and
shown.  The none branch models the exception thrown when an ok body does
not have the consumed shape. -/
def runDigestPhase (res : HttpResp) : PagePhase :=
  if !(respOk res) then
    let txt := renderJson res.body
    .error (if txt = "" then "Something went wrong." else txt)
  else
    match decodeDigestResponse res.body with
    | some d => .results d.papers d.stats
    | none => .error "Something went wrong."

/-- One step of the topic-name collection loop: push the name unless it
has been seen already. -/
def pushTopicName (acc : List String) (t : String) : List String :=
  if acc.contains t then acc else acc ++ [t]

/-- Topic metadata collection from a successful response
(page.tsx lines 102-109): the distinct topic names of the returned papers
in order of first appearance; this is also the initial active-topic set. -/
def collectTopics (papers : List Paper) : List String :=
  papers.foldl (fun acc p => p.topics.foldl pushTopicName acc) []

/-- The filtered paper list (page.tsx line 129): papers at least one of
whose topics is in the active set.  The active set is modelled by the list
of its elements. -/
def filteredPapers (papers : List Paper) (activeTopics : List String) : List Paper :=
  papers.filter (fun p => p.topics.any (fun t => activeTopics.contains t))

def PAGE_SIZE : Nat := 5

/-- Total page count (page.tsx line 130): ceiling of length / PAGE_SIZE. -/
def totalPages (n : Nat) : Nat := (n + PAGE_SIZE - 1) / PAGE_SIZE

/-- The slice of the filtered list shown on the current page
(page.tsx line 131): filtered.slice((p-1)*PAGE_SIZE, p*PAGE_SIZE). -/
def pagePapers (filtered : List Paper) (currentPage : Nat) : List Paper :=
  (filtered.drop ((currentPage - 1) * PAGE_SIZE)).take PAGE_SIZE

/-- Whether the pagination controls are rendered (page.tsx line 319). -/
def showPagination (filtered : List Paper) : Bool :=
  decide (1 < totalPages filtered.length)

/-- The collapsed abstract text (page.tsx line 256): the first 320
characters, followed by an ellipsis when the abstract is longer. -/
def previewText (abstract : String) : String :=
  String.mk (abstract.data.take 320) ++ (if abstract.length > 320 then "…" else "")

/-- The abstract text rendered in the card body (page.tsx line 282). -/
def displayedAbstract (abstract : String) (isExpanded : Bool) : String :=
  if isExpanded then abstract else previewText abstract

/-- Whether the expand toggle button is rendered (page.tsx line 284). -/
def showAbstractToggle (abstract : String) : Bool :=
  decide (abstract.length > 320)

/-- A topic of the editor page (type Topic in the editor sources). -/
structure Topic where
  id : String
  name : String
  enabled : Bool
  terms : List String
  description : String
deriving DecidableEq

/-- The whitespace class of JavaScript regular expressions and of
String.prototype.trim. -/
def jsWhitespace (c : Char) : Bool :=
  c == ' ' || c == '\t' || c == '\n' || c == '\r' || c == '\x0b' || c == '\x0c'
  || c == ' ' || c == ' '
  || (decide (' ' ≤ c) && decide (c ≤ ' '))
  || c == ' ' || c == ' ' || c == ' ' || c == ' '
  || c == '　' || c == '﻿'

/-- String.prototype.trim: strip leading and trailing whitespace. -/
def jsTrim (s : String) : String :=
  String.mk (((s.data.dropWhile jsWhitespace).reverse.dropWhile jsWhitespace).reverse)

/-- Replacement of every maximal whitespace run by a single hyphen
(the replace(/\s+/g, "-") step of slugify).  The boolean flag records
whether the previous character was whitespace. -/
def collapseWsAux : Bool → List Char → List Char
  | _, [] => []
  | inWs, c :: cs =>
    if jsWhitespace c then
      if inWs then collapseWsAux true cs
      else '-' :: collapseWsAux true cs
    else c :: collapseWsAux false cs

def collapseWs (l : List Char) : List Char := collapseWsAux false l

/-- The character class kept by the final replace(/[^a-z0-9-]/g, "") step. -/
def allowedChar (c : Char) : Bool :=
  decide ('a' ≤ c ∧ c ≤ 'z') || decide ('0' ≤ c ∧ c ≤ '9') || c == '-'

/-- slugify (editor sources): lowercase, replace whitespace runs with
hyphens, drop every character outside a-z, 0-9 and hyphen. -/
def slugify (name : String) : String :=
  String.mk ((collapseWs (name.data.map Char.toLower)).filter allowedChar)

/-- toggleEnabled (editor sources): flip the enabled flag of every topic
bearing the given identifier. -/
def toggleEnabled (topics : List Topic) (id : String) : List Topic :=
  topics.map (fun t => if t.id == id then { t with enabled := !t.enabled } else t)

/-- removeTerm (editor sources): drop every occurrence of the term from
every topic bearing the given identifier. -/
def removeTerm (topics : List Topic) (topicId term : String) : List Topic :=
  topics.map (fun t =>
    if t.id == topicId then { t with terms := t.terms.filter (fun x => !(x == term)) } else t)

/-- addTerm (editor sources): trim the input; bail out when it is empty,
when no topic bears the identifier, or when the first such topic already
contains the term; otherwise append the term to every topic bearing the
identifier. -/
def addTerm (topics : List Topic) (topicId input : String) : List Topic :=
  let val := jsTrim input
  if val = "" then topics
  else
    match topics.find? (fun t => t.id == topicId) with
    | none => topics
    | some topic =>
      if topic.terms.contains val then topics
      else topics.map (fun t =>
        if t.id == topicId then { t with terms := t.terms ++ [val] } else t)

/-- removeTopic (editor sources): drop every topic bearing the identifier. -/
def removeTopic (topics : List Topic) (id : String) : List Topic :=
  topics.filter (fun t => !(t.id == id))

/-- addTopic (editor sources): reject a name whose trim is empty,
otherwise append a fresh enabled topic whose identifier is the slugified
name. -/
def addTopic (topics : List Topic) (newTopicName newTopicDesc : String) : List Topic :=
  if jsTrim newTopicName = "" then topics
  else topics ++ [{ id := slugify newTopicName, name := jsTrim newTopicName,
                    enabled := true, terms := [], description := jsTrim newTopicDesc }]

/-- A concrete backend digest body of the shape the page consumes. -/
def sampleDigestJson : Json :=
  .obj [("papers", .arr [
          .obj [("id", .str "2401.0001"), ("title", .str "T"),
                ("abstract", .str "A"), ("authors", .arr [.str "X"]),
                ("url", .str "https://arxiv.org/abs/2401.0001"),
                ("published", .str "2024-01-01"),
                ("topics", .arr [.str "llm-agents"]),
                ("match_method", .str "keyword")]]),
        ("stats", .obj [("fetched", .num 10), ("matched", .num 1)])]

/-- The decoded value of sampleDigestJson. -/
def sampleDigest : DigestResponse :=
  ⟨[⟨"2401.0001", "T", "A", ["X"], "https://arxiv.org/abs/2401.0001",
     "2024-01-01", ["llm-agents"], "keyword"⟩], ⟨10, 1⟩⟩

/-- Two topics sharing one identifier, each with duplicate-free terms. -/
def dupTopics : List Topic :=
  [⟨"a", "A", true, [], ""⟩, ⟨"a", "A two", true, ["x"], ""⟩]

theorem asStringList_encode (l : List String) :
    asStringList (Json.arr (l.map Json.str)) = some l := by
  induction l with
  | nil => rfl
  | cons s ss ih =>
    simp only [asStringList, List.map_cons, decodeList, asString] at *
    rw [ih]

theorem decodePaper_encode (p : Paper) : decodePaper (encodePaper p) = some p := by
  simp [decodePaper, encodePaper, getField, List.lookup, asString, asStringList_encode]

theorem decodeList_encodePaper (l : List Paper) :
    decodeList decodePaper (l.map encodePaper) = some l := by
  induction l with
  | nil => rfl
  | cons p ps ih =>
    simp only [List.map_cons, decodeList]
    rw [decodePaper_encode, ih]

/-- C1 counterexample: a concrete backend response that the digest page
consumes successfully does not decode into the shape claimed by the
specification (top-level fetched, matched and entries with a per-topic
methods map); the page in fact consumes top-level papers and stats. -/
theorem digestShape_spec_counterexample :
    decodeDigestResponse sampleDigestJson = some sampleDigest
    ∧ decodeSpecDigest sampleDigestJson = none := by
  exact ⟨rfl, rfl⟩

/-- C1 (amended): every digest response consumed by the page decodes into
exactly the shape with a top-level papers array, whose elements carry the
paper fields, the matched topic identifier list and one match_method
string, and a top-level stats object with integer fetched and matched
fields: the decoder consumed by the page inverts that shape exactly. -/
theorem digestShape_roundtrip (d : DigestResponse) :
    decodeDigestResponse (encodeDigestResponse d) = some d := by
  simp [decodeDigestResponse, encodeDigestResponse, getField, List.lookup, asArr,
        decodeList_encodePaper, decodeStats, asInt]

/-- C2: the digest API route returns an error body with the backend status
exactly when the backend response is non-ok, forwards the backend JSON
unchanged otherwise, and the digest page lands in the error phase (which
renders no digest) on a non-ok backend response and in the results phase on
an ok digest response. -/
theorem digestRoute_error_propagation (backendRes : HttpResp) :
    (respOk backendRes = false →
      (digestPOST backendRes).status = backendRes.status ∧
      (digestPOST backendRes).body =
        Json.obj [("error", Json.str (renderJson backendRes.body))])
    ∧ (respOk backendRes = true → digestPOST backendRes = ⟨200, backendRes.body⟩)
    ∧ (respOk backendRes = false →
        ∃ msg, runDigestPhase (digestPOST backendRes) = .error msg)
    ∧ (∀ d, respOk backendRes = true →
        decodeDigestResponse backendRes.body = some d →
        runDigestPhase (digestPOST backendRes) = .results d.papers d.stats) := by
  refine ⟨fun h => ?_, fun h => ?_, fun h => ?_, fun d h hd => ?_⟩
  · simp [digestPOST, h]
  · simp [digestPOST, h]
  · have hs : respOk ⟨backendRes.status,
        Json.obj [("error", Json.str (renderJson backendRes.body))]⟩ = false := by
      simpa [respOk] using h
    simp only [digestPOST, h, Bool.not_false, if_pos]
    simp only [runDigestPhase, hs, Bool.not_false, if_pos]
    exact ⟨_, rfl⟩
  · have hs : respOk ⟨200, backendRes.body⟩ = true := by simp [respOk]
    simp only [digestPOST, h, Bool.not_true, Bool.false_eq_true, if_false]
    simp [runDigestPhase, hs, hd]

/-- C2 witness: a concrete 404 backend response is wrapped into an error
body with status 404. -/
theorem digestRoute_error_propagation_witness :
    (digestPOST ⟨404, Json.str "boom"⟩).status = 404
    ∧ (digestPOST ⟨404, Json.str "boom"⟩).body =
        Json.obj [("error", Json.str (renderJson (Json.str "boom")))] :=
  (digestRoute_error_propagation ⟨404, Json.str "boom"⟩).1 (by decide)


theorem mem_pushTopicName_of_mem {acc : List String} {t u : String}
    (h : t ∈ acc) : t ∈ pushTopicName acc u := by
  unfold pushTopicName
  split
  · exact h
  · exact List.mem_append_left _ h

theorem mem_pushTopicName_self (acc : List String) (t : String) :
    t ∈ pushTopicName acc t := by
  unfold pushTopicName
  split
  · next hc => exact List.elem_iff.mp hc
  · exact List.mem_append_right _ (List.mem_singleton.mpr rfl)

theorem mem_innerFold_of_mem {ts acc : List String} {t : String} (h : t ∈ acc) :
    t ∈ ts.foldl pushTopicName acc := by
  induction ts generalizing acc with
  | nil => exact h
  | cons u us ih => exact ih (mem_pushTopicName_of_mem h)

theorem mem_innerFold_of_mem_arg (ts : List String) (t : String) :
    ∀ acc : List String, t ∈ ts → t ∈ ts.foldl pushTopicName acc := by
  induction ts with
  | nil => intro acc h; cases h
  | cons u us ih =>
    intro acc h
    rw [List.foldl_cons]
    rcases List.mem_cons.mp h with rfl | hm
    · exact mem_innerFold_of_mem (mem_pushTopicName_self acc t)
    · exact ih _ hm

theorem mem_outerFold_of_mem (papers : List Paper) (t : String) :
    ∀ acc : List String, t ∈ acc →
      t ∈ papers.foldl (fun acc q => q.topics.foldl pushTopicName acc) acc := by
  induction papers with
  | nil => intro acc h; exact h
  | cons q qs ih =>
    intro acc h
    rw [List.foldl_cons]
    exact ih _ (mem_innerFold_of_mem h)

theorem mem_collectTopics {p : Paper} {t : String} (ht : t ∈ p.topics) :
    ∀ (papers : List Paper), p ∈ papers → t ∈ collectTopics papers := by
  have key : ∀ (papers : List Paper) (acc : List String), p ∈ papers →
      t ∈ papers.foldl (fun acc q => q.topics.foldl pushTopicName acc) acc := by
    intro papers
    induction papers with
    | nil => intro acc hp; cases hp
    | cons q qs ih =>
      intro acc hp
      rw [List.foldl_cons]
      rcases List.mem_cons.mp hp with rfl | hm
      · exact mem_outerFold_of_mem _ _ _ (mem_innerFold_of_mem_arg _ _ _ ht)
      · exact ih _ hm
  intro papers hp
  exact key papers [] hp

/-- C3: the digest page displays a paper exactly when one of its topics is
active, keeps the displayed papers in the order of the response list, and
with every topic active (the initial state) displays exactly the papers
with a non-empty topic list. -/
theorem filteredPapers_spec (papers : List Paper) (activeTopics : List String) :
    (filteredPapers papers activeTopics).Sublist papers
    ∧ (∀ p, p ∈ filteredPapers papers activeTopics ↔
        p ∈ papers ∧ p.topics.any (fun t => activeTopics.contains t) = true)
    ∧ filteredPapers papers (collectTopics papers)
        = papers.filter (fun p => !p.topics.isEmpty) := by
  refine ⟨List.filter_sublist _, fun p => List.mem_filter, ?_⟩
  apply List.filter_congr
  intro p hp
  cases htop : p.topics with
  | nil => simp [htop]
  | cons t ts =>
    have hmem : t ∈ collectTopics papers :=
      mem_collectTopics (by simp [htop]) papers hp
    simp [htop, hmem]

/-- C3 witness: with every topic of the sample response active, the
filtered list keeps exactly the papers with a non-empty topic list. -/
theorem filteredPapers_spec_witness :
    filteredPapers sampleDigest.papers (collectTopics sampleDigest.papers)
      = sampleDigest.papers.filter (fun p => !p.topics.isEmpty) :=
  (filteredPapers_spec sampleDigest.papers (collectTopics sampleDigest.papers)).2.2

/-- C6: toggleEnabled is an involution that flips only the enabled flag of
the topics bearing the given identifier: it removes no topic, and preserves
every identifier, name, term list and description. -/
theorem toggleEnabled_frame_involutive (topics : List Topic) (tid : String) :
    toggleEnabled (toggleEnabled topics tid) tid = topics
    ∧ (toggleEnabled topics tid).length = topics.length
    ∧ (∀ i : Nat, (toggleEnabled topics tid)[i]? =
        (topics[i]?).map (fun t => if t.id == tid then { t with enabled := !t.enabled } else t))
    ∧ (toggleEnabled topics tid).map Topic.id = topics.map Topic.id
    ∧ (toggleEnabled topics tid).map Topic.name = topics.map Topic.name
    ∧ (toggleEnabled topics tid).map Topic.terms = topics.map Topic.terms
    ∧ (toggleEnabled topics tid).map Topic.description = topics.map Topic.description := by
  refine ⟨?_, by simp [toggleEnabled],
          fun i => by simp [toggleEnabled, List.getElem?_map], ?_, ?_, ?_, ?_⟩
  · simp only [toggleEnabled, List.map_map]
    conv_rhs => rw [← List.map_id topics]
    apply List.map_congr_left
    intro t _
    cases t with
    | mk a b c d e => by_cases h : a = tid <;> simp [Function.comp, h]
  all_goals
    simp only [toggleEnabled, List.map_map]
    apply List.map_congr_left
    intro t _
    cases t with
    | mk a b c d e => by_cases h : a = tid <;> simp [Function.comp, h]

/-- C10: the collapsed abstract is the first 320 characters plus an
ellipsis exactly when the abstract is longer than 320 characters, the full
abstract otherwise; the expand toggle is offered exactly in the long case,
and the expanded view is the unmodified abstract. -/
theorem abstract_preview_spec (abstract : String) :
    (abstract.length ≤ 320 → previewText abstract = abstract)
    ∧ (320 < abstract.length →
        previewText abstract = String.mk (abstract.data.take 320) ++ "…")
    ∧ (showAbstractToggle abstract = true ↔ 320 < abstract.length)
    ∧ displayedAbstract abstract true = abstract
    ∧ displayedAbstract abstract false = previewText abstract := by
  refine ⟨fun h => ?_, fun h => ?_, by simp [showAbstractToggle], rfl, rfl⟩
  · cases abstract with
    | mk data =>
      have hlen : data.length ≤ 320 := h
      simp only [previewText, String.length] at *
      rw [if_neg (by omega), String.append_empty, List.take_of_length_le hlen]
  · simp only [previewText]
    rw [if_pos h]

/-- C10 witness: a short abstract is rendered unchanged in collapsed view. -/
theorem abstract_preview_spec_witness : previewText "short" = "short" :=
  (abstract_preview_spec "short").1 (by decide)

theorem dropWhile_head?_false {p : α → Bool} {l : List α} {a : α}
    (h : (l.dropWhile p).head? = some a) : p a = false := by
  induction l with
  | nil => simp at h
  | cons c cs ih =>
    by_cases hc : p c
    · rw [List.dropWhile_cons, if_pos hc] at h
      exact ih h
    · rw [List.dropWhile_cons, if_neg hc] at h
      obtain rfl : c = a := by simpa using h
      simpa using hc

theorem dropWhile_eq_self_of_head? {p : α → Bool} {l : List α}
    (h : ∀ a, l.head? = some a → p a = false) : l.dropWhile p = l := by
  cases l with
  | nil => rfl
  | cons c cs => rw [List.dropWhile_cons, if_neg (by simp [h c rfl])]

theorem getLast?_dropWhile {p : α → Bool} (l : List α) :
    l.dropWhile p = [] ∨ (l.dropWhile p).getLast? = l.getLast? := by
  induction l with
  | nil => exact Or.inl rfl
  | cons c cs ih =>
    by_cases hc : p c
    · rw [List.dropWhile_cons, if_pos hc]
      by_cases hnil : cs.dropWhile p = []
      · exact Or.inl hnil
      · right
        rcases ih with h | h
        · exact absurd h hnil
        · rw [h]
          cases cs with
          | nil => simp at hnil
          | cons b bs => rw [List.getLast?_cons_cons]
    · rw [List.dropWhile_cons, if_neg hc]
      exact Or.inr rfl

/-- Trimming is idempotent: the trimmed string has no leading and no
trailing whitespace left. -/
theorem jsTrim_idem (s : String) : jsTrim (jsTrim s) = jsTrim s := by
  have main : ∀ l : List Char,
      (((((((l.dropWhile jsWhitespace).reverse.dropWhile
            jsWhitespace).reverse).dropWhile jsWhitespace).reverse).dropWhile
            jsWhitespace).reverse)
        = ((l.dropWhile jsWhitespace).reverse.dropWhile jsWhitespace).reverse := by
    intro l
    have hm : (((l.dropWhile jsWhitespace).reverse.dropWhile
        jsWhitespace).reverse).dropWhile jsWhitespace
          = ((l.dropWhile jsWhitespace).reverse.dropWhile jsWhitespace).reverse := by
      apply dropWhile_eq_self_of_head?
      intro a ha
      rw [List.head?_reverse] at ha
      rcases getLast?_dropWhile (l.dropWhile jsWhitespace).reverse
          (p := jsWhitespace) with hnil | hlast
      · rw [hnil] at ha
        simp at ha
      · rw [hlast, List.getLast?_reverse] at ha
        exact dropWhile_head?_false ha
    rw [hm, List.reverse_reverse]
    have hd2 : ((l.dropWhile jsWhitespace).reverse.dropWhile
        jsWhitespace).dropWhile jsWhitespace
          = (l.dropWhile jsWhitespace).reverse.dropWhile jsWhitespace := by
      apply dropWhile_eq_self_of_head?
      intro a ha
      exact dropWhile_head?_false ha
    rw [hd2]
  show String.mk _ = String.mk _
  exact congrArg String.mk (main s.data)

/-- C4: the identifier of a topic created by addTopic is the slugified
name (lowercased, whitespace runs replaced by hyphens, characters outside
a-z, 0-9 and hyphen removed): two addTopic calls with the same name append
the same identifier, and every character of the identifier lies in the
allowed class. -/
theorem addTopic_slugify_id (l1 l2 : List Topic) (n d1 d2 : String)
    (h : jsTrim n ≠ "") :
    (addTopic l1 n d1).map Topic.id = l1.map Topic.id ++ [slugify n]
    ∧ (addTopic l2 n d2).map Topic.id = l2.map Topic.id ++ [slugify n]
    ∧ ∀ c ∈ (slugify n).data, allowedChar c = true := by
  refine ⟨by simp [addTopic, h], by simp [addTopic, h], ?_⟩
  intro c hc
  exact List.of_mem_filter hc

/-- C4 witness: adding a topic named ML Theory appends the identifier
slugify of that name. -/
theorem addTopic_slugify_id_witness :
    (addTopic [] "ML Theory" "x").map Topic.id
      = ([] : List Topic).map Topic.id ++ [slugify "ML Theory"] :=
  (addTopic_slugify_id [] [] "ML Theory" "x" "y" (by decide)).1

/-- C7: addTopic rejects an empty or whitespace-only name, leaving the
topic list unchanged; otherwise it appends exactly one topic, and every
topic it creates has a non-empty, already-trimmed name. -/
theorem addTopic_empty_name_guard (topics : List Topic) (name desc : String) :
    (jsTrim name = "" → addTopic topics name desc = topics)
    ∧ (jsTrim name ≠ "" →
        addTopic topics name desc
          = topics ++ [{ id := slugify name, name := jsTrim name,
                         enabled := true, terms := [], description := jsTrim desc }])
    ∧ (∀ t ∈ addTopic topics name desc,
        t ∈ topics ∨ (t.name = jsTrim name ∧ jsTrim t.name = t.name ∧ t.name ≠ "")) := by
  refine ⟨fun h => by simp [addTopic, h], fun h => by simp [addTopic, h], ?_⟩
  intro t ht
  by_cases h : jsTrim name = ""
  · simp only [addTopic, if_pos h] at ht
    exact Or.inl ht
  · simp only [addTopic, if_neg h] at ht
    rcases List.mem_append.mp ht with hm | hm
    · exact Or.inl hm
    · right
      rw [List.mem_singleton] at hm
      subst hm
      exact ⟨rfl, jsTrim_idem name, h⟩

/-- C7 witness: a whitespace-only name is rejected and the list is
unchanged. -/
theorem addTopic_empty_name_guard_witness :
    addTopic [] " " "d" = ([] : List Topic) :=
  (addTopic_empty_name_guard [] " " "d").1 (by decide)

/-- C5 counterexample: with two topics sharing one identifier, each with
duplicate-free term lists, addTerm consults only the first topic bearing
the identifier and appends the already-present term to the second,
introducing a duplicate term. -/
theorem addTerm_duplicate_counterexample :
    dupTopics.map Topic.terms = [[], ["x"]]
    ∧ (addTerm dupTopics "a" "x").map Topic.terms = [["x"], ["x", "x"]]
    ∧ ¬ (["x", "x"] : List String).Nodup :=
  ⟨rfl, rfl, by decide⟩

theorem find?_id_eq_of_mem {topics : List Topic} {tid : String}
    (hids : (topics.map Topic.id).Nodup) {t : Topic}
    (ht : t ∈ topics) (hid : t.id = tid) :
    topics.find? (fun u => u.id == tid) = some t := by
  cases hfind : topics.find? (fun u => u.id == tid) with
  | none =>
    rw [List.find?_eq_none] at hfind
    exact absurd (by simp [hid]) (hfind t ht)
  | some u =>
    have hu1 : (u.id == tid) = true :=
      List.find?_some (p := fun v : Topic => v.id == tid) hfind
    have hu2 : u ∈ topics := List.mem_of_find?_eq_some hfind
    have : u = t :=
      List.inj_on_of_nodup_map hids hu2 ht (by rw [eq_of_beq hu1, hid])
    rw [this]

/-- C5 (amended): provided the topic identifiers in the list are distinct,
the term list of every topic stays duplicate-free under addTerm and
removeTerm, addTerm leaves the list unchanged when the trimmed input is
empty or already present in the addressed topic and otherwise appends the
trimmed term at the end of that topic, and removeTerm removes every
occurrence of the given term from the addressed topic. -/
theorem addTerm_removeTerm_nodup (topics : List Topic) (tid input x : String)
    (hids : (topics.map Topic.id).Nodup)
    (hterms : ∀ t ∈ topics, t.terms.Nodup) :
    (∀ t ∈ addTerm topics tid input, t.terms.Nodup)
    ∧ (jsTrim input = "" → addTerm topics tid input = topics)
    ∧ (∀ t ∈ topics, t.id = tid → jsTrim input ∈ t.terms →
        addTerm topics tid input = topics)
    ∧ (∀ t ∈ topics, t.id = tid → jsTrim input ∉ t.terms → jsTrim input ≠ "" →
        addTerm topics tid input
          = topics.map (fun u =>
              if u.id == tid then { u with terms := u.terms ++ [jsTrim input] } else u))
    ∧ (∀ t ∈ removeTerm topics tid x, t.terms.Nodup)
    ∧ (∀ t ∈ removeTerm topics tid x, t.id = tid → x ∉ t.terms) := by
  refine ⟨?_, fun h => by simp [addTerm, h], ?_, ?_, ?_, ?_⟩
  · intro t' ht'
    by_cases hval : jsTrim input = ""
    · simp only [addTerm, if_pos hval] at ht'
      exact hterms t' ht'
    · simp only [addTerm, if_neg hval] at ht'
      cases hfind : topics.find? (fun u => u.id == tid) with
      | none =>
        rw [hfind] at ht'
        exact hterms t' ht'
      | some u =>
        rw [hfind] at ht'
        have ht2 : t' ∈ (if u.terms.contains (jsTrim input) = true then topics
            else topics.map (fun t =>
              if t.id == tid then { t with terms := t.terms ++ [jsTrim input] }
              else t)) := ht'
        by_cases hcont : u.terms.contains (jsTrim input)
        · rw [if_pos hcont] at ht2
          exact hterms t' ht2
        · rw [if_neg hcont] at ht2
          obtain ⟨w, hw, rfl⟩ := List.mem_map.mp ht2
          by_cases hbeq : w.id == tid
          · have hwu : w = u := by
              have hu1 : (u.id == tid) = true :=
                List.find?_some (p := fun v : Topic => v.id == tid) hfind
              have hu2 : u ∈ topics := List.mem_of_find?_eq_some hfind
              exact List.inj_on_of_nodup_map hids hw hu2
                (by rw [eq_of_beq hbeq, eq_of_beq hu1])
            simp only [if_pos hbeq]
            refine (hterms w hw).append (List.nodup_singleton _) ?_
            intro b hb hbmem
            rw [List.mem_singleton] at hbmem
            subst hbmem
            subst hwu
            exact hcont (List.elem_iff.mpr hb)
          · simp only [if_neg hbeq]
            exact hterms w hw
  · intro t ht hid hmem
    by_cases hval : jsTrim input = ""
    · simp [addTerm, hval]
    · simp only [addTerm, if_neg hval]
      rw [find?_id_eq_of_mem hids ht hid]
      simp only [if_pos (List.elem_iff.mpr hmem)]
  · intro t ht hid hmem hval
    simp only [addTerm, if_neg hval]
    rw [find?_id_eq_of_mem hids ht hid]
    have hc : t.terms.contains (jsTrim input) = false := by
      rw [← Bool.not_eq_true]
      intro hcc
      exact hmem (List.elem_iff.mp hcc)
    simp only [hc, Bool.false_eq_true, if_false]
  · intro t' ht'
    obtain ⟨w, hw, rfl⟩ := List.mem_map.mp ht'
    by_cases hbeq : w.id == tid
    · simp only [if_pos hbeq]
      exact (hterms w hw).filter _
    · simp only [if_neg hbeq]
      exact hterms w hw
  · intro t' ht' hid' hmem'
    obtain ⟨w, hw, rfl⟩ := List.mem_map.mp ht'
    by_cases hbeq : w.id == tid
    · rw [if_pos hbeq] at hmem'
      have := List.of_mem_filter hmem'
      simp at this
    · rw [if_neg hbeq] at hid'
      exact hbeq (by simp [hid'])

/-- C5 witness: with a unique identifier, adding an already-present term
leaves the topic list unchanged. -/
theorem addTerm_removeTerm_nodup_witness :
    addTerm [⟨"a", "A", true, ["x"], ""⟩] "a" "x" = [⟨"a", "A", true, ["x"], ""⟩] :=
  (addTerm_removeTerm_nodup [⟨"a", "A", true, ["x"], ""⟩] "a" "x" "y"
      (by decide) (by decide)).2.2.1 ⟨"a", "A", true, ["x"], ""⟩
      (by decide) rfl (by decide)

/-- C8: identifiers are not required to be unique: two addTopic calls whose
names slugify to the same string keep both topics in the list with equal
identifiers, and the identifier-keyed operations apply to both of them:
toggleEnabled flips the enabled flag of both and removeTopic removes both. -/
theorem duplicate_id_operations (l : List Topic) (n1 n2 d1 d2 : String)
    (h1 : jsTrim n1 ≠ "") (h2 : jsTrim n2 ≠ "") (hs : slugify n1 = slugify n2) :
    addTopic (addTopic l n1 d1) n2 d2
      = l ++ [{ id := slugify n1, name := jsTrim n1, enabled := true,
                terms := [], description := jsTrim d1 },
              { id := slugify n2, name := jsTrim n2, enabled := true,
                terms := [], description := jsTrim d2 }]
    ∧ removeTopic (addTopic (addTopic l n1 d1) n2 d2) (slugify n1)
        = removeTopic l (slugify n1)
    ∧ toggleEnabled (addTopic (addTopic l n1 d1) n2 d2) (slugify n1)
        = toggleEnabled l (slugify n1)
          ++ [{ id := slugify n1, name := jsTrim n1, enabled := false,
                terms := [], description := jsTrim d1 },
              { id := slugify n2, name := jsTrim n2, enabled := false,
                terms := [], description := jsTrim d2 }] := by
  have happ : addTopic (addTopic l n1 d1) n2 d2
      = l ++ [{ id := slugify n1, name := jsTrim n1, enabled := true,
                terms := [], description := jsTrim d1 },
              { id := slugify n2, name := jsTrim n2, enabled := true,
                terms := [], description := jsTrim d2 }] := by
    simp [addTopic, h1, h2]
  refine ⟨happ, ?_, ?_⟩
  · rw [happ]
    simp [removeTopic, List.filter_append, ← hs]
  · rw [happ]
    simp [toggleEnabled, List.map_append, ← hs]

/-- C8 witness: the names LLM Agents and llm AGENTS! slugify to the same
identifier, and both created topics are kept. -/
theorem duplicate_id_operations_witness :
    addTopic (addTopic [] "LLM Agents" "a") "llm AGENTS!" "b"
      = [] ++ [{ id := slugify "LLM Agents", name := jsTrim "LLM Agents",
                 enabled := true, terms := [], description := jsTrim "a" },
               { id := slugify "llm AGENTS!", name := jsTrim "llm AGENTS!",
                 enabled := true, terms := [], description := jsTrim "b" }] :=
  (duplicate_id_operations [] "LLM Agents" "llm AGENTS!" "a" "b"
      (by decide) (by decide) (by decide)).1

theorem pagesJoin_aux : ∀ (n : Nat) (l : List Paper), l.length = n →
    (List.range (totalPages n)).flatMap (fun k => pagePapers l (k + 1)) = l := by
  intro n
  induction n using Nat.strongRecOn with
  | ind n ih =>
    intro l hn
    cases l with
    | nil =>
      obtain rfl : n = 0 := by simpa using hn.symm
      simp [totalPages, PAGE_SIZE]
    | cons x xs =>
      have hn1 : 1 ≤ n := by
        rw [← hn]
        simp
      have htot : totalPages n = totalPages (n - 5) + 1 := by
        unfold totalPages PAGE_SIZE
        omega
      rw [htot, List.range_succ_eq_map, List.flatMap_cons, List.flatMap_map]
      have hdrop : (List.range (totalPages (n - 5))).flatMap
          (fun a => pagePapers (x :: xs) (Nat.succ a + 1))
            = (List.range (totalPages (n - 5))).flatMap
                (fun a => pagePapers ((x :: xs).drop 5) (a + 1)) := by
        congr 1
        funext a
        simp only [pagePapers, PAGE_SIZE, List.drop_drop]
        rw [show (Nat.succ a + 1 - 1) * 5 = 5 + (a + 1 - 1) * 5 by omega]
      have hlen : ((x :: xs).drop 5).length = n - 5 := by
        rw [List.length_drop, hn]
      have hfirst : pagePapers (x :: xs) (0 + 1) = (x :: xs).take 5 := by
        simp [pagePapers, PAGE_SIZE]
      calc (pagePapers (x :: xs) (0 + 1)) ++ (List.range (totalPages (n - 5))).flatMap
              (fun a => pagePapers (x :: xs) (Nat.succ a + 1))
          = (x :: xs).take 5 ++ (x :: xs).drop 5 := by
            rw [hfirst, hdrop, ih (n - 5) (by omega) ((x :: xs).drop 5) hlen]
        _ = x :: xs := List.take_append_drop 5 (x :: xs)

/-- C9: pagination slices the filtered list into fixed pages of PAGE_SIZE
papers: page p shows exactly the window of the filtered list starting at
index (p-1)*PAGE_SIZE (at most PAGE_SIZE papers), the pages in order
jointly reproduce the whole filtered list with nothing repeated or
omitted, and pagination controls render exactly when more than one page
exists, that is when the filtered list is longer than PAGE_SIZE. -/
theorem pagination_spec (filtered : List Paper) (p : Nat) (hp : 1 ≤ p) :
    (pagePapers filtered p).length
      = min (p * PAGE_SIZE) filtered.length - (p - 1) * PAGE_SIZE
    ∧ (pagePapers filtered p).length ≤ PAGE_SIZE
    ∧ (∀ i : Nat, (pagePapers filtered p)[i]? =
        if i < PAGE_SIZE then filtered[(p - 1) * PAGE_SIZE + i]? else none)
    ∧ (List.range (totalPages filtered.length)).flatMap
        (fun k => pagePapers filtered (k + 1)) = filtered
    ∧ (showPagination filtered = true ↔ PAGE_SIZE < filtered.length) := by
  refine ⟨?_, ?_, ?_, pagesJoin_aux filtered.length filtered rfl, ?_⟩
  · simp only [pagePapers, List.length_take, List.length_drop, PAGE_SIZE]
    omega
  · simp only [pagePapers]
    exact List.length_take_le _ _
  · intro i
    simp only [pagePapers]
    rw [List.getElem?_take]
    by_cases hi : i < PAGE_SIZE
    · rw [if_pos hi, if_pos hi, List.getElem?_drop]
    · rw [if_neg hi, if_neg hi]
  · simp only [showPagination, totalPages, PAGE_SIZE, decide_eq_true_eq]
    omega

/-- C9 witness: the first page of the sample digest shows at most
PAGE_SIZE papers. -/
theorem pagination_spec_witness :
    (pagePapers sampleDigest.papers 1).length ≤ PAGE_SIZE :=
  (pagination_spec sampleDigest.papers 1 (by decide)).2.1
